import Mathlib

/-!
# uefi-loader: the protective MBR written by `main.c`

A shallow embedding of `src/main.c`.

* `uint8_t`, `uint16_t`, `uint32_t` and `size_t` values are natural numbers; the
  range of each field is recorded by `MbrPartition.wf` and `Mbr.wf`.
* The two packed structs become Lean structures with the fields of the source,
  in the order of the source.  A C array `T a[n]` is a list, whose length `n`
  is part of the well-formedness predicate.
* `Mbr.bytes` is the object representation that `fwrite (&mbr, 1, sizeof (Mbr), file)`
  reads: the members in declaration order, without padding (both structs are
  `__attribute__((packed))`), every integer member least-significant byte first
  (the byte order of the x86 / UEFI targets the loader is built for).
* The C library (`fopen`, `fwrite`, `fprintf`, `fclose`) is the environment: its
  outcomes are read from the `World`, its effects are recorded in the `World`.
-/

namespace UefiLoader

/-! ## Integers and arrays in memory -/

/-- The `w` bytes of the unsigned integer `v`, least-significant byte first. -/
def le_bytes : Nat → Nat → List Nat
  | 0, _ => []
  | w + 1, v => v % 256 :: le_bytes w (v / 256)

/-- The unsigned integer stored least-significant byte first in `bs`. -/
def le_decode : List Nat → Nat
  | [] => 0
  | b :: bs => b + 256 * le_decode bs

/-- The value of an array of `n` elements initialised by the brace list `xs`: the listed
elements in order, every remaining element zero (`{ 0 }` for a 440-element array gives 440
zeros).  The same function pads or cuts a list to the `n` elements the array has in memory. -/
def array_init {α : Type} (zero : α) (n : Nat) (xs : List α) : List α :=
  xs.take n ++ List.replicate (n - xs.length) zero

/-- The `n` bytes of a `uint8_t [n]` member. -/
def u8_array_bytes (n : Nat) (xs : List Nat) : List Nat :=
  (array_init 0 n xs).map (fun b => b % 256)

/-! ## `MbrPartition` -/

/-- The packed struct `MbrPartition` of `main.c`, members in declaration order. -/
structure MbrPartition where
  /-- Member `uint8_t boot_indicator`. -/
  boot_indicator : Nat
  /-- Member `uint8_t starting_chs[3]`. -/
  starting_chs : List Nat
  /-- Member `uint8_t os_type`. -/
  os_type : Nat
  /-- Member `uint8_t ending_chs[3]`. -/
  ending_chs : List Nat
  /-- Member `uint32_t starting_lba`. -/
  starting_lba : Nat
  /-- Member `uint32_t size_in_lba`. -/
  size_in_lba : Nat
deriving DecidableEq, Repr

namespace MbrPartition

/-- The zero-initialised `MbrPartition` (what C gives an element no initialiser names). -/
def zero : MbrPartition :=
  { boot_indicator := 0
    starting_chs := array_init 0 3 []
    os_type := 0
    ending_chs := array_init 0 3 []
    starting_lba := 0
    size_in_lba := 0 }

/-- Every member holds a value of its C type. -/
def wf (p : MbrPartition) : Prop :=
  p.boot_indicator < 256 ∧
  p.starting_chs.length = 3 ∧ (∀ b ∈ p.starting_chs, b < 256) ∧
  p.os_type < 256 ∧
  p.ending_chs.length = 3 ∧ (∀ b ∈ p.ending_chs, b < 256) ∧
  p.starting_lba < 2 ^ 32 ∧
  p.size_in_lba < 2 ^ 32

instance (p : MbrPartition) : Decidable p.wf := by
  unfold wf; infer_instance

/-- The value of `sizeof (MbrPartition)`: the member sizes, no padding (packed). -/
def sizeof : Nat := 1 + 3 + 1 + 3 + 4 + 4

/-- Object representation of a packed `MbrPartition`. -/
def bytes (p : MbrPartition) : List Nat :=
  le_bytes 1 p.boot_indicator ++
  u8_array_bytes 3 p.starting_chs ++
  le_bytes 1 p.os_type ++
  u8_array_bytes 3 p.ending_chs ++
  le_bytes 4 p.starting_lba ++
  le_bytes 4 p.size_in_lba

/-- The `MbrPartition` whose object representation is `bs` (the inverse layout). -/
def decode (bs : List Nat) : MbrPartition :=
  { boot_indicator := le_decode (bs.take 1)
    starting_chs := (bs.drop 1).take 3
    os_type := le_decode ((bs.drop 4).take 1)
    ending_chs := (bs.drop 5).take 3
    starting_lba := le_decode ((bs.drop 8).take 4)
    size_in_lba := le_decode ((bs.drop 12).take 4) }

end MbrPartition

/-! ## `Mbr` -/

/-- The packed struct `Mbr` of `main.c`, members in declaration order. -/
structure Mbr where
  /-- Member `uint8_t boot_code[440]`. -/
  boot_code : List Nat
  /-- Member `uint32_t disk_signature`. -/
  disk_signature : Nat
  /-- Member `uint16_t unknown`. -/
  unknown : Nat
  /-- Member `MbrPartition partition_records[4]`. -/
  partition_records : List MbrPartition
  /-- Member `uint16_t signature`. -/
  signature : Nat
deriving DecidableEq, Repr

namespace Mbr

/-- Every member holds a value of its C type. -/
def wf (m : Mbr) : Prop :=
  m.boot_code.length = 440 ∧ (∀ b ∈ m.boot_code, b < 256) ∧
  m.disk_signature < 2 ^ 32 ∧
  m.unknown < 2 ^ 16 ∧
  m.partition_records.length = 4 ∧ (∀ p ∈ m.partition_records, p.wf) ∧
  m.signature < 2 ^ 16

instance (m : Mbr) : Decidable m.wf := by
  unfold wf; infer_instance

/-- The value of `sizeof (Mbr)`: the member sizes, no padding (packed). -/
def sizeof : Nat := 440 + 4 + 2 + 4 * MbrPartition.sizeof + 2

/-- Object representation of a packed `Mbr`: what `fwrite (&mbr, 1, sizeof (Mbr), file)` reads. -/
def bytes (m : Mbr) : List Nat :=
  u8_array_bytes 440 m.boot_code ++
  le_bytes 4 m.disk_signature ++
  le_bytes 2 m.unknown ++
  (array_init MbrPartition.zero 4 m.partition_records).flatMap MbrPartition.bytes ++
  le_bytes 2 m.signature

/-- The `Mbr` whose object representation is `bs` (the inverse layout). -/
def decode (bs : List Nat) : Mbr :=
  { boot_code := bs.take 440
    disk_signature := le_decode ((bs.drop 440).take 4)
    unknown := le_decode ((bs.drop 444).take 2)
    partition_records :=
      (List.range 4).map (fun i =>
        MbrPartition.decode ((bs.drop (446 + MbrPartition.sizeof * i)).take MbrPartition.sizeof))
    signature := le_decode ((bs.drop 510).take 2) }

end Mbr

/-- The local `Mbr mbr = { ... }` of `write_mbr`: the designated initialisers of the source
applied to a zero-initialised object. -/
def write_mbr.mbr : Mbr :=
  { boot_code := array_init 0 440 [0]
    disk_signature := 0
    unknown := 0
    partition_records :=
      (array_init MbrPartition.zero 4 []).set 0
        { boot_indicator := 0
          starting_chs := array_init 0 3 [0x00, 0x02, 0x00]
          os_type := 0xEE
          ending_chs := array_init 0 3 [0xFF, 0xFF, 0xFF]
          starting_lba := 0x00000001
          size_in_lba := 0xdead }
    signature := 0xAA55 }

/-- The 16 bytes of partition-record slot `i` of a sector image. -/
def slot (img : List Nat) (i : Nat) : List Nat :=
  (img.drop (446 + 16 * i)).take 16

/-! ## The C library as environment -/

/-- A call into the C library, with the arguments the program passes. -/
inductive Call where
  /-- A call `fopen (filename, mode)`. -/
  | fopen (filename mode : String)
  /-- A call `fwrite (ptr, size, nmemb, stream)`: `ptr` is the memory it points at. -/
  | fwrite (ptr : List Nat) (size nmemb : Nat)
  /-- A call `fprintf (stderr, ...)`, with the formatted text. -/
  | fprintf (text : String)
  /-- A call `fclose (stream)`. -/
  | fclose
deriving DecidableEq, Repr

/-- A non-NULL `FILE *`: the stream of the named file. -/
structure FILE where
  /-- Name of the file the stream was opened on. -/
  filename : String
deriving DecidableEq, Repr

/-- The world around one run of the program. -/
structure World where
  /-- Environment: `fopen` returns a stream (`true`) or `NULL` (`false`). -/
  fopen_ok : Bool
  /-- Environment: the number of items `fwrite` reports as transferred. -/
  fwrite_ret : Nat
  /-- Content of the target file, `none` while it does not exist. -/
  content : Option (List Nat)
  /-- Text written to `stderr` so far. -/
  stderr : String
  /-- Library calls issued so far, oldest first. -/
  calls : List Call
deriving DecidableEq, Repr

/-- Library `fopen`: on success in a `w` mode the file exists and is empty; on failure the
file is left as it was. -/
def fopen (filename mode : String) (w : World) : Option FILE × World :=
  let w := { w with calls := w.calls ++ [Call.fopen filename mode] }
  if w.fopen_ok then
    (some { filename := filename },
      { w with content := if mode.data.head? = some 'w' then some [] else w.content })
  else
    (none, w)

/-- Library `fwrite`: reports the count the environment chose and appends the bytes that
count stands for. -/
def fwrite (ptr : List Nat) (size nmemb : Nat) (_stream : FILE) (w : World) : Nat × World :=
  (w.fwrite_ret,
    { w with
      content := w.content.map (fun c => c ++ ptr.take (size * w.fwrite_ret))
      calls := w.calls ++ [Call.fwrite ptr size nmemb] })

/-- Expansion of a `printf` format whose only conversion is `%s`, with argument `arg`. -/
def format_s : List Char → List Char → List Char
  | '%' :: 's' :: rest, arg => arg ++ format_s rest arg
  | c :: rest, arg => c :: format_s rest arg
  | [], _ => []

/-- Library `fprintf (stderr, format, arg)`. -/
def fprintf_stderr (format arg : String) (w : World) : World :=
  let text := String.mk (format_s format.data arg.data)
  { w with stderr := w.stderr ++ text, calls := w.calls ++ [Call.fprintf text] }

/-- Library `fclose`. -/
def fclose (_stream : FILE) (w : World) : World :=
  { w with calls := w.calls ++ [Call.fclose] }

/-! ## The program -/

/-- Function `bool write_mbr (FILE *file)`. -/
def write_mbr (file : FILE) (w : World) : Bool × World :=
  let mbr := write_mbr.mbr
  let (bytes_written, w) := fwrite (Mbr.bytes mbr) 1 Mbr.sizeof file w
  if bytes_written != Mbr.sizeof then
    (false, w)
  else
    (true, w)

/-- Function `int main ()`: the exit code and the world it leaves. -/
def main (w : World) : Int × World :=
  let file_name := "out.img"
  let (file, w) := fopen file_name "wb+" w
  match file with
  | none =>
    let w := fprintf_stderr "Error: could not open file %s\n" file_name w
    (1, w)
  | some file =>
    let (ok, w) := write_mbr file w
    let w := if !ok then fprintf_stderr "Failed to write to file %s\n" file_name w else w
    let w := fclose file w
    (0, w)

end UefiLoader

/-! # Theorems -/

namespace UefiLoader

/-! ## The sector `write_mbr` builds -/

set_option maxRecDepth 100000 in
/-- The object representation of the `mbr` of `write_mbr`, byte by byte. -/
theorem write_mbr_image :
    Mbr.bytes write_mbr.mbr =
      List.replicate 446 0 ++
        ([0x00, 0x00, 0x02, 0x00, 0xEE, 0xFF, 0xFF, 0xFF, 0x01, 0x00, 0x00, 0x00,
          0xAD, 0xDE, 0x00, 0x00] ++
          (List.replicate 48 0 ++ [0x55, 0xAA])) := by
  decide

/-- The value `sizeof (Mbr)` is 512. -/
theorem sizeof_Mbr : Mbr.sizeof = 512 := by decide

/-- What `write_mbr` returns and the world it leaves, in terms of the `fwrite` it issues. -/
theorem write_mbr_eq (file : FILE) (w : World) :
    write_mbr file w =
      ((fwrite (Mbr.bytes write_mbr.mbr) 1 Mbr.sizeof file w).1 == Mbr.sizeof,
        (fwrite (Mbr.bytes write_mbr.mbr) 1 Mbr.sizeof file w).2) := by
  unfold write_mbr
  by_cases h : (fwrite (Mbr.bytes write_mbr.mbr) 1 Mbr.sizeof file w).1 = Mbr.sizeof
  · simp [h]
  · simp [h]

set_option maxRecDepth 100000 in
/-- C1: in the 512-byte image of the `Mbr` that `write_mbr` hands to `fwrite`, partition
slot 0 is byte-exact: byte 446 is 0x00, bytes 447..449 are 00 02 00, byte 450 is 0xEE, bytes
451..453 are FF FF FF, bytes 454..457 are 01 00 00 00 and decode little-endian to 1, bytes
458..461 are AD DE 00 00 and decode little-endian to 0xDEAD. -/
theorem write_mbr_slot0_bytes :
    (Mbr.bytes write_mbr.mbr)[446]? = some 0x00 ∧
    ((Mbr.bytes write_mbr.mbr).drop 447).take 3 = [0x00, 0x02, 0x00] ∧
    (Mbr.bytes write_mbr.mbr)[450]? = some 0xEE ∧
    ((Mbr.bytes write_mbr.mbr).drop 451).take 3 = [0xFF, 0xFF, 0xFF] ∧
    ((Mbr.bytes write_mbr.mbr).drop 454).take 4 = [0x01, 0x00, 0x00, 0x00] ∧
    le_decode (((Mbr.bytes write_mbr.mbr).drop 454).take 4) = 1 ∧
    ((Mbr.bytes write_mbr.mbr).drop 458).take 4 = [0xAD, 0xDE, 0x00, 0x00] ∧
    le_decode (((Mbr.bytes write_mbr.mbr).drop 458).take 4) = 0xDEAD := by
  decide

set_option maxRecDepth 100000 in
/-- C2: the image of the `Mbr` that `write_mbr` builds has exactly 512 bytes, and the one
`fwrite` that `write_mbr` issues is handed that image and asks for `sizeof (Mbr)` = 512 items
of size 1. -/
theorem write_mbr_requests_512 (file : FILE) (w : World) :
    (Mbr.bytes write_mbr.mbr).length = 512 ∧
    Mbr.sizeof = 512 ∧
    (write_mbr file w).2.calls = w.calls ++ [Call.fwrite (Mbr.bytes write_mbr.mbr) 1 512] := by
  refine ⟨by decide, by decide, ?_⟩
  rw [write_mbr_eq, sizeof_Mbr]
  rfl

set_option maxRecDepth 100000 in
/-- C3: the image `write_mbr` builds ends in the boot signature, least-significant byte
first: byte 510 is 0x55, byte 511 is 0xAA, and nothing follows them. -/
theorem write_mbr_signature_bytes :
    (Mbr.bytes write_mbr.mbr)[510]? = some 0x55 ∧
    (Mbr.bytes write_mbr.mbr)[511]? = some 0xAA ∧
    (Mbr.bytes write_mbr.mbr).drop 510 = [0x55, 0xAA] ∧
    le_decode ((Mbr.bytes write_mbr.mbr).drop 510) = 0xAA55 := by
  decide

/-- C4: in the image `write_mbr` builds, every byte of `boot_code` (0..439), of
`disk_signature` (440..443), of `unknown` (444..445) and of partition slots 1..3 (462..509)
is zero. -/
theorem write_mbr_zero_regions (i : Nat)
    (h : i < 440 ∨ (440 ≤ i ∧ i < 444) ∨ (444 ≤ i ∧ i < 446) ∨ (462 ≤ i ∧ i < 510)) :
    (Mbr.bytes write_mbr.mbr)[i]? = some 0x00 := by
  rw [write_mbr_image]
  have l446 : (List.replicate 446 0).length = 446 := List.length_replicate _ _
  have l48 : (List.replicate 48 0).length = 48 := List.length_replicate _ _
  have l16 : [0x00, 0x00, 0x02, 0x00, 0xEE, 0xFF, 0xFF, 0xFF, 0x01, 0x00, 0x00, 0x00,
      0xAD, 0xDE, 0x00, 0x00].length = 16 := rfl
  by_cases h1 : i < 446
  · rw [List.getElem?_append_left (by omega), List.getElem?_replicate, if_pos h1]
  · have h2 : 462 ≤ i ∧ i < 510 := by omega
    rw [List.getElem?_append_right (by omega), List.getElem?_append_right (by omega),
      List.getElem?_append_left (by omega), List.getElem?_replicate, if_pos (by omega)]

/-- Witness of C4 at byte 463, inside partition slot 1. -/
theorem write_mbr_zero_regions_witness : (Mbr.bytes write_mbr.mbr)[463]? = some 0x00 :=
  write_mbr_zero_regions 463 (by decide)

/-! ## Return values, exit code and diagnostics -/

/-- The run of `main` when `fopen` returns `NULL`. -/
theorem main_open_fails (w : World) (h : w.fopen_ok = false) :
    main w =
      (1, fprintf_stderr "Error: could not open file %s\n" "out.img"
        { w with calls := w.calls ++ [Call.fopen "out.img" "wb+"] }) := by
  simp [main, fopen, h]

/-- The run of `main` when `fopen` returns a stream. -/
theorem main_open_ok (w : World) (h : w.fopen_ok = true) :
    main w =
      (0, fclose { filename := "out.img" }
        (if !(write_mbr { filename := "out.img" }
              { w with content := some [], calls := w.calls ++ [Call.fopen "out.img" "wb+"] }).1
         then
          fprintf_stderr "Failed to write to file %s\n" "out.img"
            (write_mbr { filename := "out.img" }
              { w with content := some [],
                       calls := w.calls ++ [Call.fopen "out.img" "wb+"] }).2
         else
          (write_mbr { filename := "out.img" }
            { w with content := some [],
                     calls := w.calls ++ [Call.fopen "out.img" "wb+"] }).2)) := by
  have hw : ("wb+".data.head? = some 'w') := by decide
  simp only [main, fopen, h, if_true, if_pos hw]

/-- The text `fprintf` produces for the open-failure diagnostic. -/
theorem open_diagnostic_text :
    String.mk (format_s "Error: could not open file %s\n".data "out.img".data) =
      "Error: could not open file " ++ "out.img" ++ "\n" := by
  decide

/-- The text `fprintf` produces for the write-failure diagnostic. -/
theorem write_diagnostic_text :
    String.mk (format_s "Failed to write to file %s\n".data "out.img".data) =
      "Failed to write to file " ++ "out.img" ++ "\n" := by
  decide

/-- The `stderr` left by the open-failure diagnostic. -/
theorem stderr_open_diagnostic (w : World) :
    (fprintf_stderr "Error: could not open file %s\n" "out.img" w).stderr =
      w.stderr ++ ("Error: could not open file " ++ "out.img" ++ "\n") :=
  congrArg (fun t => w.stderr ++ t) open_diagnostic_text

/-- The `stderr` left by the write-failure diagnostic. -/
theorem stderr_write_diagnostic (w : World) :
    (fprintf_stderr "Failed to write to file %s\n" "out.img" w).stderr =
      w.stderr ++ ("Failed to write to file " ++ "out.img" ++ "\n") :=
  congrArg (fun t => w.stderr ++ t) write_diagnostic_text

/-- The value `write_mbr` returns, in terms of the count the environment reports. -/
theorem write_mbr_fst (file : FILE) (w : World) :
    (write_mbr file w).1 = (w.fwrite_ret == 512) := by
  rw [write_mbr_eq, sizeof_Mbr]
  rfl

/-- The world `write_mbr` leaves. -/
theorem write_mbr_snd (file : FILE) (w : World) :
    (write_mbr file w).2 =
      { w with
        content := w.content.map (fun c => c ++ (Mbr.bytes write_mbr.mbr).take (1 * w.fwrite_ret))
        calls := w.calls ++ [Call.fwrite (Mbr.bytes write_mbr.mbr) 1 512] } := by
  rw [write_mbr_eq, sizeof_Mbr]
  rfl

/-- C5 (the code departs from the claim): after a successful open and a short write of 0 of
the 512 bytes, `main` prints its write-failure diagnostic and still exits with code 0, while
a failed open exits with code 1 and a full write with code 0. -/
theorem main_short_write_exit_code :
    (main { fopen_ok := true, fwrite_ret := 0, content := none, stderr := "", calls := [] }).1
        = 0 ∧
    (main { fopen_ok := true, fwrite_ret := 0, content := none, stderr := "",
            calls := [] }).2.stderr = "Failed to write to file out.img\n" ∧
    (main { fopen_ok := false, fwrite_ret := 0, content := none, stderr := "", calls := [] }).1
        = 1 ∧
    (main { fopen_ok := true, fwrite_ret := 512, content := none, stderr := "",
            calls := [] }).1 = 0 := by
  decide

/-- C6: `write_mbr` returns true exactly when the `fwrite` it issues reports 512 items
transferred, and false for every other reported count. -/
theorem write_mbr_true_iff (file : FILE) (w : World) :
    ((write_mbr file w).1 = true ↔
      (fwrite (Mbr.bytes write_mbr.mbr) 1 Mbr.sizeof file w).1 = 512) ∧
    ((write_mbr file w).1 = false ↔
      (fwrite (Mbr.bytes write_mbr.mbr) 1 Mbr.sizeof file w).1 ≠ 512) ∧
    (fwrite (Mbr.bytes write_mbr.mbr) 1 Mbr.sizeof file w).1 = w.fwrite_ret := by
  rw [write_mbr_eq, sizeof_Mbr]
  simp [fwrite]

set_option maxRecDepth 100000 in
/-- C9: in the image `write_mbr` builds, slot 0 is the only one of the four 16-byte
partition-record slots with a non-zero byte; slots 1, 2 and 3 are sixteen zero bytes each. -/
theorem write_mbr_one_slot_used :
    (∃ b ∈ slot (Mbr.bytes write_mbr.mbr) 0, b ≠ 0) ∧
    slot (Mbr.bytes write_mbr.mbr) 1 = List.replicate 16 0 ∧
    slot (Mbr.bytes write_mbr.mbr) 2 = List.replicate 16 0 ∧
    slot (Mbr.bytes write_mbr.mbr) 3 = List.replicate 16 0 ∧
    (List.range 4).filter (fun i => (slot (Mbr.bytes write_mbr.mbr) i).any (fun b => b != 0))
      = [0] := by
  decide

/-- C10: when the open fails, or the write transfers fewer than 512 bytes, `main` appends to
`stderr` a diagnostic that contains the path `out.img`; when the open succeeds and all 512
bytes are written, `main` leaves `stderr` as it was. -/
theorem main_diagnostic (w : World) :
    ((w.fopen_ok = false ∨ w.fwrite_ret < 512) →
      ∃ pre post : String, (main w).2.stderr = w.stderr ++ (pre ++ "out.img" ++ post)) ∧
    ((w.fopen_ok = true ∧ w.fwrite_ret = 512) → (main w).2.stderr = w.stderr) := by
  constructor
  · intro h
    cases hopen : w.fopen_ok with
    | false =>
      refine ⟨"Error: could not open file ", "\n", ?_⟩
      rw [main_open_fails w hopen]
      exact stderr_open_diagnostic _
    | true =>
      have hlt : w.fwrite_ret < 512 := by
        rcases h with h | h
        · rw [hopen] at h; cases h
        · exact h
      have hne : (w.fwrite_ret == 512) = false := by
        rw [beq_eq_false_iff_ne]; omega
      refine ⟨"Failed to write to file ", "\n", ?_⟩
      rw [main_open_ok w hopen, write_mbr_fst, write_mbr_snd]
      show (if (!(w.fwrite_ret == 512)) = true then _ else _ : World).stderr = _
      rw [hne, if_pos (by decide : (!false) = true)]
      exact stderr_write_diagnostic _
  · rintro ⟨hopen, hret⟩
    have heq : (w.fwrite_ret == 512) = true := by
      rw [beq_iff_eq]; exact hret
    rw [main_open_ok w hopen, write_mbr_fst, write_mbr_snd]
    show (if (!(w.fwrite_ret == 512)) = true then _ else _ : World).stderr = _
    rw [heq, if_neg (by decide : ¬ (!true) = true)]

/-- Witness of C10, failure side: a run whose write transfers 100 bytes. -/
theorem main_diagnostic_witness :
    ((true = false ∨ 100 < 512) ∧
      ∃ pre post : String,
        (main { fopen_ok := true, fwrite_ret := 100, content := none, stderr := "",
                calls := [] }).2.stderr = "" ++ (pre ++ "out.img" ++ post)) ∧
    ((true = true ∧ 512 = 512) ∧
      (main { fopen_ok := true, fwrite_ret := 512, content := none, stderr := "",
              calls := [] }).2.stderr = "") :=
  ⟨⟨by decide, (main_diagnostic _).1 (by decide)⟩, ⟨by decide, (main_diagnostic _).2 (by decide)⟩⟩

/-! ## The packed layout, for every value -/

/-- An array that already has its `n` elements is its own initialiser. -/
theorem array_init_of_length {α : Type} (zero : α) (n : Nat) (xs : List α)
    (h : xs.length = n) : array_init zero n xs = xs := by
  unfold array_init
  rw [List.take_of_length_le (by omega), h, Nat.sub_self]
  simp

/-- The bytes of a well-formed `uint8_t [n]` member are its elements. -/
theorem u8_array_bytes_of_wf (n : Nat) (xs : List Nat) (h : xs.length = n)
    (hb : ∀ b ∈ xs, b < 256) : u8_array_bytes n xs = xs := by
  unfold u8_array_bytes
  rw [array_init_of_length 0 n xs h]
  calc xs.map (fun b => b % 256) = xs.map id :=
        List.map_congr_left (fun b hmem => Nat.mod_eq_of_lt (hb b hmem))
    _ = xs := List.map_id xs

/-- A little-endian integer field of `w` bytes has `w` bytes. -/
theorem le_bytes_length (w v : Nat) : (le_bytes w v).length = w := by
  induction w generalizing v with
  | zero => rfl
  | succ w ih => simp [le_bytes, ih]

/-- Byte `k` of a little-endian field is digit `k` of the value in base 256. -/
theorem le_bytes_getElem? (w v k : Nat) (h : k < w) :
    (le_bytes w v)[k]? = some (v / 256 ^ k % 256) := by
  induction w generalizing v k with
  | zero => omega
  | succ w ih =>
    cases k with
    | zero => simp [le_bytes]
    | succ k =>
      simp only [le_bytes, List.getElem?_cons_succ]
      rw [ih (v / 256) k (by omega), Nat.div_div_eq_div_mul, pow_succ, Nat.mul_comm]

/-- Decoding a little-endian field gives the value back, modulo its width. -/
theorem le_decode_le_bytes (w v : Nat) : le_decode (le_bytes w v) = v % 256 ^ w := by
  induction w generalizing v with
  | zero => simp [le_bytes, le_decode, Nat.mod_one]
  | succ w ih =>
    simp only [le_bytes, le_decode, ih]
    rw [pow_succ, Nat.mul_comm (256 ^ w) 256, Nat.mod_mul]

/-- Reading past a prefix of known length. -/
theorem getElem?_append_add {α : Type} (a b : List α) (n j : Nat) (ha : a.length = n) :
    (a ++ b)[n + j]? = b[j]? := by
  rw [List.getElem?_append_right (by omega)]
  congr 1
  omega

/-- The sixteen bytes of a well-formed partition record, member by member. -/
theorem partition_bytes_of_wf (p : MbrPartition) (h : p.wf) :
    p.bytes =
      [p.boot_indicator] ++ (p.starting_chs ++ ([p.os_type] ++ (p.ending_chs ++
        (le_bytes 4 p.starting_lba ++ le_bytes 4 p.size_in_lba)))) := by
  obtain ⟨h1, h2, h3, h4, h5, h6, _, _⟩ := h
  unfold MbrPartition.bytes
  rw [u8_array_bytes_of_wf 3 _ h2 h3, u8_array_bytes_of_wf 3 _ h5 h6]
  simp only [le_bytes, Nat.mod_eq_of_lt h1, Nat.mod_eq_of_lt h4, List.append_assoc]

/-- A partition record occupies `sizeof (MbrPartition)` = 16 bytes. -/
theorem partition_bytes_length (p : MbrPartition) : p.bytes.length = 16 := by
  simp [MbrPartition.bytes, u8_array_bytes, array_init, le_bytes_length]
  omega

/-- Decoding the bytes of a well-formed partition record gives the record back. -/
theorem partition_decode_bytes (p : MbrPartition) (h : p.wf) :
    MbrPartition.decode p.bytes = p := by
  rw [partition_bytes_of_wf p h]
  obtain ⟨bi, sc, os, ec, lba, sz⟩ := p
  obtain ⟨h1, h2, h3, h4, h5, h6, h7, h8⟩ := h
  simp only at h1 h2 h3 h4 h5 h6 h7 h8
  obtain ⟨a, b, c, rfl⟩ := List.length_eq_three.mp h2
  obtain ⟨d, e, f, rfl⟩ := List.length_eq_three.mp h5
  have e1 : le_decode (le_bytes 4 lba) = lba := by
    rw [le_decode_le_bytes]; exact Nat.mod_eq_of_lt h7
  have e2 : le_decode (le_bytes 4 sz) = sz := by
    rw [le_decode_le_bytes]; exact Nat.mod_eq_of_lt h8
  have l1 : (le_bytes 4 lba).length = 4 := le_bytes_length 4 lba
  simp only [MbrPartition.decode, MbrPartition.mk.injEq]
  refine ⟨?_, ?_, ?_, ?_, ?_, ?_⟩
  · simp [le_decode]
  · simp
  · simp [le_decode]
  · simp
  · show le_decode ((le_bytes 4 lba ++ le_bytes 4 sz).take 4) = lba
    rw [List.take_left' l1, e1]
  · show le_decode (((le_bytes 4 lba ++ le_bytes 4 sz).drop 4).take 4) = sz
    rw [List.drop_left' l1, List.take_of_length_le (by rw [le_bytes_length]), e2]

/-- Four partition records take 64 bytes, whatever list stands for the array. -/
theorem records_bytes_length (ps : List MbrPartition) :
    ((array_init MbrPartition.zero 4 ps).flatMap MbrPartition.bytes).length = 64 := by
  have hlen : (array_init MbrPartition.zero 4 ps).length = 4 := by
    simp [array_init]; omega
  match array_init MbrPartition.zero 4 ps, hlen with
  | [p0, p1, p2, p3], _ =>
    simp [List.flatMap, partition_bytes_length]

/-- The image of every `Mbr` has `sizeof (Mbr)` = 512 bytes. -/
theorem mbr_bytes_length (m : Mbr) : (Mbr.bytes m).length = 512 := by
  unfold Mbr.bytes
  simp only [List.length_append, records_bytes_length, le_bytes_length, u8_array_bytes,
    List.length_map]
  simp [array_init]
  omega

/-- The image of a well-formed `Mbr`, member by member. -/
theorem mbr_bytes_of_wf (m : Mbr) (h : m.wf) :
    ∃ p0 p1 p2 p3, m.partition_records = [p0, p1, p2, p3] ∧
      p0.wf ∧ p1.wf ∧ p2.wf ∧ p3.wf ∧
      Mbr.bytes m =
        m.boot_code ++ (le_bytes 4 m.disk_signature ++ (le_bytes 2 m.unknown ++
          (p0.bytes ++ (p1.bytes ++ (p2.bytes ++ (p3.bytes ++ le_bytes 2 m.signature)))))) := by
  obtain ⟨h1, h2, _, _, h5, h6, _⟩ := h
  match hps : m.partition_records, h5 with
  | [p0, p1, p2, p3], _ =>
    refine ⟨p0, p1, p2, p3, rfl, ?_, ?_, ?_, ?_, ?_⟩
    · exact h6 p0 (by rw [hps]; simp)
    · exact h6 p1 (by rw [hps]; simp)
    · exact h6 p2 (by rw [hps]; simp)
    · exact h6 p3 (by rw [hps]; simp)
    · unfold Mbr.bytes
      rw [u8_array_bytes_of_wf 440 _ h1 h2, hps,
        array_init_of_length MbrPartition.zero 4 [p0, p1, p2, p3] rfl]
      simp [List.flatMap]

/-- The sections of the image of a well-formed `Mbr`: each member at its offset. -/
theorem mbr_sections (m : Mbr) (h : m.wf) :
    ∃ p0 p1 p2 p3, m.partition_records = [p0, p1, p2, p3] ∧
      p0.wf ∧ p1.wf ∧ p2.wf ∧ p3.wf ∧
      (Mbr.bytes m).take 440 = m.boot_code ∧
      ((Mbr.bytes m).drop 440).take 4 = le_bytes 4 m.disk_signature ∧
      ((Mbr.bytes m).drop 444).take 2 = le_bytes 2 m.unknown ∧
      ((Mbr.bytes m).drop 446).take 16 = p0.bytes ∧
      ((Mbr.bytes m).drop 462).take 16 = p1.bytes ∧
      ((Mbr.bytes m).drop 478).take 16 = p2.bytes ∧
      ((Mbr.bytes m).drop 494).take 16 = p3.bytes ∧
      ((Mbr.bytes m).drop 510).take 2 = le_bytes 2 m.signature := by
  obtain ⟨p0, p1, p2, p3, hps, w0, w1, w2, w3, himg⟩ := mbr_bytes_of_wf m h
  obtain ⟨h1, _, h3, h4, _, _, h7⟩ := h
  have ld : (le_bytes 4 m.disk_signature).length = 4 := le_bytes_length _ _
  have lu : (le_bytes 2 m.unknown).length = 2 := le_bytes_length _ _
  have l0 : p0.bytes.length = 16 := partition_bytes_length p0
  have l1 : p1.bytes.length = 16 := partition_bytes_length p1
  have l2 : p2.bytes.length = 16 := partition_bytes_length p2
  have l3 : p3.bytes.length = 16 := partition_bytes_length p3
  have d440 : (Mbr.bytes m).drop 440 = le_bytes 4 m.disk_signature ++ (le_bytes 2 m.unknown ++
      (p0.bytes ++ (p1.bytes ++ (p2.bytes ++ (p3.bytes ++ le_bytes 2 m.signature))))) := by
    rw [himg, List.drop_left' h1]
  have d444 : (Mbr.bytes m).drop 444 = le_bytes 2 m.unknown ++
      (p0.bytes ++ (p1.bytes ++ (p2.bytes ++ (p3.bytes ++ le_bytes 2 m.signature)))) := by
    rw [show (444 : Nat) = 440 + 4 from rfl, ← List.drop_drop, d440, List.drop_left' ld]
  have d446 : (Mbr.bytes m).drop 446 =
      p0.bytes ++ (p1.bytes ++ (p2.bytes ++ (p3.bytes ++ le_bytes 2 m.signature))) := by
    rw [show (446 : Nat) = 444 + 2 from rfl, ← List.drop_drop, d444, List.drop_left' lu]
  have d462 : (Mbr.bytes m).drop 462 =
      p1.bytes ++ (p2.bytes ++ (p3.bytes ++ le_bytes 2 m.signature)) := by
    rw [show (462 : Nat) = 446 + 16 from rfl, ← List.drop_drop, d446, List.drop_left' l0]
  have d478 : (Mbr.bytes m).drop 478 = p2.bytes ++ (p3.bytes ++ le_bytes 2 m.signature) := by
    rw [show (478 : Nat) = 462 + 16 from rfl, ← List.drop_drop, d462, List.drop_left' l1]
  have d494 : (Mbr.bytes m).drop 494 = p3.bytes ++ le_bytes 2 m.signature := by
    rw [show (494 : Nat) = 478 + 16 from rfl, ← List.drop_drop, d478, List.drop_left' l2]
  have d510 : (Mbr.bytes m).drop 510 = le_bytes 2 m.signature := by
    rw [show (510 : Nat) = 494 + 16 from rfl, ← List.drop_drop, d494, List.drop_left' l3]
  refine ⟨p0, p1, p2, p3, hps, w0, w1, w2, w3, ?_, ?_, ?_, ?_, ?_, ?_, ?_, ?_⟩
  · rw [himg, List.take_left' h1]
  · rw [d440, List.take_left' ld]
  · rw [d444, List.take_left' lu]
  · rw [d446, List.take_left' l0]
  · rw [d462, List.take_left' l1]
  · rw [d478, List.take_left' l2]
  · rw [d494, List.take_left' l3]
  · rw [d510, List.take_of_length_le (by rw [le_bytes_length])]

/-- Decoding the image of a well-formed `Mbr` gives the `Mbr` back. -/
theorem mbr_decode_bytes (m : Mbr) (h : m.wf) : Mbr.decode (Mbr.bytes m) = m := by
  obtain ⟨p0, p1, p2, p3, hps, w0, w1, w2, w3, s_bc, s_ds, s_un, s0, s1, s2, s3, s_sg⟩ :=
    mbr_sections m h
  obtain ⟨_, _, h3, h4, _, _, h7⟩ := h
  have e_ps : (List.range 4).map (fun i => MbrPartition.decode
      (((Mbr.bytes m).drop (446 + MbrPartition.sizeof * i)).take MbrPartition.sizeof)) =
      [p0, p1, p2, p3] := by
    show [MbrPartition.decode (((Mbr.bytes m).drop 446).take 16),
      MbrPartition.decode (((Mbr.bytes m).drop 462).take 16),
      MbrPartition.decode (((Mbr.bytes m).drop 478).take 16),
      MbrPartition.decode (((Mbr.bytes m).drop 494).take 16)] = _
    rw [s0, s1, s2, s3, partition_decode_bytes p0 w0, partition_decode_bytes p1 w1,
      partition_decode_bytes p2 w2, partition_decode_bytes p3 w3]
  unfold Mbr.decode
  have h3' : m.disk_signature < 256 ^ 4 := h3
  have h4' : m.unknown < 256 ^ 2 := h4
  have h7' : m.signature < 256 ^ 2 := h7
  rw [s_bc, s_ds, s_un, s_sg, e_ps, ← hps, le_decode_le_bytes, le_decode_le_bytes,
    le_decode_le_bytes, Nat.mod_eq_of_lt h3', Nat.mod_eq_of_lt h4', Nat.mod_eq_of_lt h7']

/-- Byte `k` of the slice of length `len` at offset `n` is byte `n + k` of the list. -/
theorem slice_getElem? {α : Type} (l : List α) (n len k : Nat) (hk : k < len) :
    l[n + k]? = ((l.drop n).take len)[k]? := by
  rw [List.getElem?_take_of_lt hk, List.getElem?_drop]

/-- The bytes of a well-formed partition record, at their sub-offsets. -/
theorem partition_layout (p : MbrPartition) (h : p.wf) :
    p.bytes[0]? = some p.boot_indicator ∧
    (∀ k, k < 3 → p.bytes[1 + k]? = p.starting_chs[k]?) ∧
    p.bytes[4]? = some p.os_type ∧
    (∀ k, k < 3 → p.bytes[5 + k]? = p.ending_chs[k]?) ∧
    (∀ k, k < 4 → p.bytes[8 + k]? = some (p.starting_lba / 256 ^ k % 256)) ∧
    (∀ k, k < 4 → p.bytes[12 + k]? = some (p.size_in_lba / 256 ^ k % 256)) := by
  rw [partition_bytes_of_wf p h]
  obtain ⟨_, h2, _, _, h5, _, _, _⟩ := h
  have l1 : [p.boot_indicator].length = 1 := rfl
  have l2 : [p.os_type].length = 1 := rfl
  have l4 : (le_bytes 4 p.starting_lba).length = 4 := le_bytes_length _ _
  refine ⟨by simp, ?_, ?_, ?_, ?_, ?_⟩
  · intro k hk
    rw [getElem?_append_add _ _ 1 k l1, List.getElem?_append_left (by omega)]
  · exact (getElem?_append_add [p.boot_indicator] _ 1 3 l1).trans
      ((getElem?_append_add p.starting_chs _ 3 0 h2).trans (by simp))
  · intro k hk
    rw [show (5 : Nat) + k = 1 + (3 + (1 + k)) by omega, getElem?_append_add _ _ 1 _ l1,
      getElem?_append_add _ _ 3 _ h2, getElem?_append_add _ _ 1 _ l2,
      List.getElem?_append_left (by omega)]
  · intro k hk
    rw [show (8 : Nat) + k = 1 + (3 + (1 + (3 + k))) by omega, getElem?_append_add _ _ 1 _ l1,
      getElem?_append_add _ _ 3 _ h2, getElem?_append_add _ _ 1 _ l2,
      getElem?_append_add _ _ 3 _ h5, List.getElem?_append_left (by omega),
      le_bytes_getElem? 4 _ k hk]
  · intro k hk
    rw [show (12 : Nat) + k = 1 + (3 + (1 + (3 + (4 + k)))) by omega,
      getElem?_append_add _ _ 1 _ l1,
      getElem?_append_add _ _ 3 _ h2, getElem?_append_add _ _ 1 _ l2,
      getElem?_append_add _ _ 3 _ h5, getElem?_append_add _ _ 4 _ l4,
      le_bytes_getElem? 4 _ k hk]

/-- Record `i` of a well-formed `Mbr` is well-formed and fills the 16 bytes at `446 + 16 * i`. -/
theorem mbr_record_slice (m : Mbr) (h : m.wf) (i : Nat) (p : MbrPartition)
    (hp : m.partition_records[i]? = some p) :
    p.wf ∧ ((Mbr.bytes m).drop (446 + 16 * i)).take 16 = p.bytes := by
  obtain ⟨p0, p1, p2, p3, hps, w0, w1, w2, w3, _, _, _, s0, s1, s2, s3, _⟩ := mbr_sections m h
  rw [hps] at hp
  match i, hp with
  | 0, hp =>
    have e : p0 = p := by simpa using hp
    subst e
    exact ⟨w0, s0⟩
  | 1, hp =>
    have e : p1 = p := by simpa using hp
    subst e
    exact ⟨w1, s1⟩
  | 2, hp =>
    have e : p2 = p := by simpa using hp
    subst e
    exact ⟨w2, s2⟩
  | 3, hp =>
    have e : p3 = p := by simpa using hp
    subst e
    exact ⟨w3, s3⟩
  | n + 4, hp => simp at hp

/-- C8: layout of the packed serialization of every well-formed `Mbr`. The image has 512
bytes; `boot_code` fills bytes 0..439, `disk_signature` bytes 440..443, `unknown` bytes
444..445, `partition_records[i]` the 16 bytes from `446 + 16 * i` (with `boot_indicator` at
sub-offset 0, `starting_chs` at 1, `os_type` at 4, `ending_chs` at 5, `starting_lba` at 8,
`size_in_lba` at 12) and `signature` bytes 510..511; byte `k` of every multi-byte integer
member is digit `k` of its value in base 256, so the least-significant byte comes first. -/
theorem mbr_layout (m : Mbr) (h : m.wf) :
    (Mbr.bytes m).length = 512 ∧
    (∀ j, j < 440 → (Mbr.bytes m)[j]? = m.boot_code[j]?) ∧
    (∀ k, k < 4 → (Mbr.bytes m)[440 + k]? = some (m.disk_signature / 256 ^ k % 256)) ∧
    (∀ k, k < 2 → (Mbr.bytes m)[444 + k]? = some (m.unknown / 256 ^ k % 256)) ∧
    (∀ i p, m.partition_records[i]? = some p →
      i < 4 ∧
      (Mbr.bytes m)[446 + 16 * i + 0]? = some p.boot_indicator ∧
      (∀ k, k < 3 → (Mbr.bytes m)[446 + 16 * i + 1 + k]? = p.starting_chs[k]?) ∧
      (Mbr.bytes m)[446 + 16 * i + 4]? = some p.os_type ∧
      (∀ k, k < 3 → (Mbr.bytes m)[446 + 16 * i + 5 + k]? = p.ending_chs[k]?) ∧
      (∀ k, k < 4 →
        (Mbr.bytes m)[446 + 16 * i + 8 + k]? = some (p.starting_lba / 256 ^ k % 256)) ∧
      (∀ k, k < 4 →
        (Mbr.bytes m)[446 + 16 * i + 12 + k]? = some (p.size_in_lba / 256 ^ k % 256))) ∧
    (∀ k, k < 2 → (Mbr.bytes m)[510 + k]? = some (m.signature / 256 ^ k % 256)) := by
  obtain ⟨p0, p1, p2, p3, hps, _, _, _, _, s_bc, s_ds, s_un, _, _, _, _, s_sg⟩ :=
    mbr_sections m h
  refine ⟨mbr_bytes_length m, ?_, ?_, ?_, ?_, ?_⟩
  · intro j hj
    rw [← s_bc, List.getElem?_take_of_lt hj]
  · intro k hk
    rw [slice_getElem? _ 440 4 k hk, s_ds, le_bytes_getElem? 4 _ k hk]
  · intro k hk
    rw [slice_getElem? _ 444 2 k hk, s_un, le_bytes_getElem? 2 _ k hk]
  · intro i p hp
    obtain ⟨wp, sp⟩ := mbr_record_slice m h i p hp
    obtain ⟨q0, q1, q4, q5, q8, q12⟩ := partition_layout p wp
    have hi : i < 4 := by
      have hlt := (List.getElem?_eq_some_iff.mp hp).1
      rw [hps] at hlt
      exact hlt
    refine ⟨hi, ?_, ?_, ?_, ?_, ?_, ?_⟩
    · rw [slice_getElem? _ (446 + 16 * i) 16 0 (by omega), sp, q0]
    · intro k hk
      rw [Nat.add_assoc, slice_getElem? _ (446 + 16 * i) 16 (1 + k) (by omega), sp, q1 k hk]
    · rw [slice_getElem? _ (446 + 16 * i) 16 4 (by omega), sp, q4]
    · intro k hk
      rw [Nat.add_assoc, slice_getElem? _ (446 + 16 * i) 16 (5 + k) (by omega), sp, q5 k hk]
    · intro k hk
      rw [Nat.add_assoc, slice_getElem? _ (446 + 16 * i) 16 (8 + k) (by omega), sp, q8 k hk]
    · intro k hk
      rw [Nat.add_assoc, slice_getElem? _ (446 + 16 * i) 16 (12 + k) (by omega), sp, q12 k hk]
  · intro k hk
    rw [slice_getElem? _ 510 2 k hk, s_sg, le_bytes_getElem? 2 _ k hk]

set_option maxRecDepth 100000 in
/-- Witness of C8 at the `mbr` of `write_mbr`: it is well-formed, its image has 512 bytes,
its record 0 sits at byte 446 and its signature 0xAA55 is stored as 0x55, 0xAA. -/
theorem mbr_layout_witness :
    write_mbr.mbr.wf ∧
    (Mbr.bytes write_mbr.mbr).length = 512 ∧
    (∀ k, k < 4 → (Mbr.bytes write_mbr.mbr)[446 + 16 * 0 + 12 + k]? =
      some (0xdead / 256 ^ k % 256)) ∧
    (∀ k, k < 2 → (Mbr.bytes write_mbr.mbr)[510 + k]? = some (0xAA55 / 256 ^ k % 256)) :=
  ⟨by decide,
    (mbr_layout write_mbr.mbr (by decide)).1,
    ((mbr_layout write_mbr.mbr (by decide)).2.2.2.2.1 0 _ rfl).2.2.2.2.2.2,
    (mbr_layout write_mbr.mbr (by decide)).2.2.2.2.2⟩

set_option maxRecDepth 100000 in
/-- C7: round trip of the packed layout. Decoding the 512-byte image of any well-formed `Mbr`
by the inverse layout gives that `Mbr` back; and decoding the image `write_mbr` produces
gives boot_indicator 0, starting_chs 00 02 00, os_type 0xEE, ending_chs FF FF FF,
starting_lba 1, size_in_lba 0xDEAD in record 0, signature 0xAA55, and zero everywhere else. -/
theorem mbr_roundtrip (m : Mbr) (h : m.wf) :
    Mbr.decode (Mbr.bytes m) = m ∧
    Mbr.decode (Mbr.bytes write_mbr.mbr) =
      { boot_code := List.replicate 440 0
        disk_signature := 0
        unknown := 0
        partition_records :=
          [{ boot_indicator := 0, starting_chs := [0x00, 0x02, 0x00], os_type := 0xEE,
             ending_chs := [0xFF, 0xFF, 0xFF], starting_lba := 1, size_in_lba := 0xDEAD },
           { boot_indicator := 0, starting_chs := [0, 0, 0], os_type := 0,
             ending_chs := [0, 0, 0], starting_lba := 0, size_in_lba := 0 },
           { boot_indicator := 0, starting_chs := [0, 0, 0], os_type := 0,
             ending_chs := [0, 0, 0], starting_lba := 0, size_in_lba := 0 },
           { boot_indicator := 0, starting_chs := [0, 0, 0], os_type := 0,
             ending_chs := [0, 0, 0], starting_lba := 0, size_in_lba := 0 }]
        signature := 0xAA55 } :=
  ⟨mbr_decode_bytes m h, by decide⟩

set_option maxRecDepth 100000 in
/-- Witness of C7 at an `Mbr` with no zero member: boot code 0x90 throughout, four distinct
records, every integer member with all its bytes different. -/
theorem mbr_roundtrip_witness :
    Mbr.wf
      { boot_code := List.replicate 440 0x90
        disk_signature := 0x12345678
        unknown := 0xBEEF
        partition_records :=
          [{ boot_indicator := 0x80, starting_chs := [1, 2, 3], os_type := 0x0C,
             ending_chs := [4, 5, 6], starting_lba := 0x01020304, size_in_lba := 0xA0B0C0D0 },
           { boot_indicator := 0, starting_chs := [7, 8, 9], os_type := 0x83,
             ending_chs := [10, 11, 12], starting_lba := 0x11121314, size_in_lba := 0xFFFFFFFF },
           { boot_indicator := 1, starting_chs := [13, 14, 15], os_type := 0x82,
             ending_chs := [16, 17, 18], starting_lba := 0x21222324, size_in_lba := 0x31323334 },
           { boot_indicator := 0xFF, starting_chs := [0xFF, 0xFE, 0xFD], os_type := 0xEE,
             ending_chs := [0xFC, 0xFB, 0xFA], starting_lba := 0xFFFFFFFE, size_in_lba := 1 }]
        signature := 0xAA55 } ∧
    Mbr.decode (Mbr.bytes
      { boot_code := List.replicate 440 0x90
        disk_signature := 0x12345678
        unknown := 0xBEEF
        partition_records :=
          [{ boot_indicator := 0x80, starting_chs := [1, 2, 3], os_type := 0x0C,
             ending_chs := [4, 5, 6], starting_lba := 0x01020304, size_in_lba := 0xA0B0C0D0 },
           { boot_indicator := 0, starting_chs := [7, 8, 9], os_type := 0x83,
             ending_chs := [10, 11, 12], starting_lba := 0x11121314, size_in_lba := 0xFFFFFFFF },
           { boot_indicator := 1, starting_chs := [13, 14, 15], os_type := 0x82,
             ending_chs := [16, 17, 18], starting_lba := 0x21222324, size_in_lba := 0x31323334 },
           { boot_indicator := 0xFF, starting_chs := [0xFF, 0xFE, 0xFD], os_type := 0xEE,
             ending_chs := [0xFC, 0xFB, 0xFA], starting_lba := 0xFFFFFFFE, size_in_lba := 1 }]
        signature := 0xAA55 }) =
      { boot_code := List.replicate 440 0x90
        disk_signature := 0x12345678
        unknown := 0xBEEF
        partition_records :=
          [{ boot_indicator := 0x80, starting_chs := [1, 2, 3], os_type := 0x0C,
             ending_chs := [4, 5, 6], starting_lba := 0x01020304, size_in_lba := 0xA0B0C0D0 },
           { boot_indicator := 0, starting_chs := [7, 8, 9], os_type := 0x83,
             ending_chs := [10, 11, 12], starting_lba := 0x11121314, size_in_lba := 0xFFFFFFFF },
           { boot_indicator := 1, starting_chs := [13, 14, 15], os_type := 0x82,
             ending_chs := [16, 17, 18], starting_lba := 0x21222324, size_in_lba := 0x31323334 },
           { boot_indicator := 0xFF, starting_chs := [0xFF, 0xFE, 0xFD], os_type := 0xEE,
             ending_chs := [0xFC, 0xFB, 0xFA], starting_lba := 0xFFFFFFFE, size_in_lba := 1 }]
        signature := 0xAA55 } :=
  ⟨by decide, (mbr_roundtrip _ (by decide)).1⟩

/-! ## The run of `main`: file content and library calls -/

/-- The world `main` leaves after a successful open and a full write. -/
theorem main_world_full_write (w : World) (hopen : w.fopen_ok = true)
    (hret : w.fwrite_ret = 512) :
    (main w).2 =
      { w with
        content := some ([] ++ (Mbr.bytes write_mbr.mbr).take (1 * w.fwrite_ret))
        calls := w.calls ++ [Call.fopen "out.img" "wb+"] ++
          [Call.fwrite (Mbr.bytes write_mbr.mbr) 1 512] ++ [Call.fclose] } := by
  have heq : (w.fwrite_ret == 512) = true := by
    rw [beq_iff_eq]; exact hret
  rw [main_open_ok w hopen, write_mbr_fst, write_mbr_snd]
  show fclose { filename := "out.img" }
    (if (!(w.fwrite_ret == 512)) = true then _ else _ : World) = _
  rw [heq, if_neg (by decide : ¬ (!true) = true)]
  rfl

/-- The world `main` leaves after a successful open and a write that is not full. -/
theorem main_world_short_write (w : World) (hopen : w.fopen_ok = true)
    (hret : w.fwrite_ret ≠ 512) :
    (main w).2 =
      { w with
        content := some ([] ++ (Mbr.bytes write_mbr.mbr).take (1 * w.fwrite_ret))
        stderr := w.stderr ++ String.mk (format_s "Failed to write to file %s\n".data
          "out.img".data)
        calls := w.calls ++ [Call.fopen "out.img" "wb+"] ++
          [Call.fwrite (Mbr.bytes write_mbr.mbr) 1 512] ++
          [Call.fprintf (String.mk (format_s "Failed to write to file %s\n".data
            "out.img".data))] ++ [Call.fclose] } := by
  have hne : (w.fwrite_ret == 512) = false := by
    rw [beq_eq_false_iff_ne]; exact hret
  rw [main_open_ok w hopen, write_mbr_fst, write_mbr_snd]
  show fclose { filename := "out.img" }
    (if (!(w.fwrite_ret == 512)) = true then _ else _ : World) = _
  rw [hne, if_pos (by decide : (!false) = true)]
  rfl

/-- The world `main` leaves after a failed open. -/
theorem main_world_open_fails (w : World) (hopen : w.fopen_ok = false) :
    (main w).2 =
      { w with
        stderr := w.stderr ++ String.mk (format_s "Error: could not open file %s\n".data
          "out.img".data)
        calls := w.calls ++ [Call.fopen "out.img" "wb+"] ++
          [Call.fprintf (String.mk (format_s "Error: could not open file %s\n".data
            "out.img".data))] } := by
  rw [main_open_fails w hopen]
  rfl

/-- The open-failure diagnostic as one literal. -/
theorem open_diagnostic_literal :
    String.mk (format_s "Error: could not open file %s\n".data "out.img".data) =
      "Error: could not open file out.img\n" := by
  decide

/-- The write-failure diagnostic as one literal. -/
theorem write_diagnostic_literal :
    String.mk (format_s "Failed to write to file %s\n".data "out.img".data) =
      "Failed to write to file out.img\n" := by
  decide

/-- C11: end to end. When the open in mode `wb+` succeeds (the file is then empty) and
`fwrite` transfers all 512 bytes (appended to the file), the content of `out.img` after
`main` has at least 512 bytes and its first 512 bytes are the image of the `Mbr` built in
`write_mbr`. -/
theorem main_writes_image (w : World) (hopen : w.fopen_ok = true)
    (hret : w.fwrite_ret = 512) :
    ∃ c, (main w).2.content = some c ∧ 512 ≤ c.length ∧
      c.take 512 = Mbr.bytes write_mbr.mbr := by
  have hlen : (Mbr.bytes write_mbr.mbr).length = 512 := mbr_bytes_length _
  refine ⟨Mbr.bytes write_mbr.mbr, ?_, by omega, List.take_of_length_le (by omega)⟩
  rw [main_world_full_write w hopen hret, hret]
  show some ([] ++ (Mbr.bytes write_mbr.mbr).take (1 * 512)) = _
  rw [List.nil_append, List.take_of_length_le (by omega)]

/-- Witness of C11: a run over an existing three-byte file, with a successful open and a
full write. -/
theorem main_writes_image_witness :
    ∃ c, (main { fopen_ok := true, fwrite_ret := 512, content := some [1, 2, 3],
                 stderr := "", calls := [] }).2.content = some c ∧
      512 ≤ c.length ∧ c.take 512 = Mbr.bytes write_mbr.mbr :=
  main_writes_image _ rfl rfl

/-- C13: when the open of `out.img` fails, `main` ends at once with code 1. After the
`fopen` it issues only the diagnostic `fprintf`: no `fwrite` (the one call `write_mbr`
makes), no `fclose`, and the content of the target is what it was. -/
theorem main_open_failure_frame (w : World) (hopen : w.fopen_ok = false) :
    (main w).1 = 1 ∧
    (main w).2.calls =
      w.calls ++ [Call.fopen "out.img" "wb+",
        Call.fprintf "Error: could not open file out.img\n"] ∧
    (∀ ptr size nmemb,
      Call.fwrite ptr size nmemb ∉ (main w).2.calls.drop w.calls.length) ∧
    Call.fclose ∉ (main w).2.calls.drop w.calls.length ∧
    (main w).2.content = w.content := by
  have hcalls : (main w).2.calls =
      w.calls ++ [Call.fopen "out.img" "wb+",
        Call.fprintf "Error: could not open file out.img\n"] := by
    rw [main_world_open_fails w hopen, open_diagnostic_literal]
    show w.calls ++ [Call.fopen "out.img" "wb+"] ++ _ = _
    rw [List.append_assoc]
    rfl
  have hdrop : (main w).2.calls.drop w.calls.length =
      [Call.fopen "out.img" "wb+", Call.fprintf "Error: could not open file out.img\n"] := by
    rw [hcalls, List.drop_left]
  refine ⟨?_, hcalls, ?_, ?_, ?_⟩
  · rw [main_open_fails w hopen]
  · intro ptr size nmemb
    rw [hdrop]
    simp
  · rw [hdrop]
    simp
  · rw [main_world_open_fails w hopen]

/-- Witness of C13: a failed open on an existing file leaves its three bytes in place. -/
theorem main_open_failure_frame_witness :
    (main { fopen_ok := false, fwrite_ret := 512, content := some [1, 2, 3],
            stderr := "", calls := [] }).1 = 1 ∧
    (main { fopen_ok := false, fwrite_ret := 512, content := some [1, 2, 3],
            stderr := "", calls := [] }).2.content = some [1, 2, 3] :=
  ⟨(main_open_failure_frame _ rfl).1, (main_open_failure_frame _ rfl).2.2.2.2⟩

/-- C14: no retries and a fixed order. The library calls of a run of `main` are one `fopen`;
then, if it succeeded, one `fwrite` of the 512-byte image (not repeated after a short
write), the write-failure diagnostic when the write was not full, and one `fclose` in either
case; if the open failed, only the open-failure diagnostic. -/
theorem main_call_sequence (w : World) :
    (main w).2.calls =
      w.calls ++
        (if w.fopen_ok = true then
          [Call.fopen "out.img" "wb+", Call.fwrite (Mbr.bytes write_mbr.mbr) 1 512] ++
            (if w.fwrite_ret = 512 then []
              else [Call.fprintf "Failed to write to file out.img\n"]) ++
            [Call.fclose]
        else
          [Call.fopen "out.img" "wb+",
            Call.fprintf "Error: could not open file out.img\n"]) := by
  cases hopen : w.fopen_ok with
  | false =>
    rw [main_world_open_fails w hopen, open_diagnostic_literal,
      if_neg (by decide : ¬ (false = true))]
    show w.calls ++ [Call.fopen "out.img" "wb+"] ++ _ = _
    rw [List.append_assoc]
    rfl
  | true =>
    rw [if_pos rfl]
    by_cases hret : w.fwrite_ret = 512
    · rw [main_world_full_write w hopen hret, if_pos hret]
      show w.calls ++ [Call.fopen "out.img" "wb+"] ++ _ ++ _ = _
      rw [List.append_assoc, List.append_assoc]
      rfl
    · rw [main_world_short_write w hopen hret, if_neg hret, write_diagnostic_literal]
      show w.calls ++ [Call.fopen "out.img" "wb+"] ++ _ ++ _ ++ _ = _
      rw [List.append_assoc, List.append_assoc, List.append_assoc]
      rfl

/-- C16: the exit code of `main` depends on the outcome of the open alone: it is 1 exactly
when `fopen` fails, and 0 whenever `fopen` succeeds, whatever count `fwrite` reports. -/
theorem main_exit_code_by_open (w : World) :
    (main w).1 = (if w.fopen_ok = true then 0 else 1) ∧
    ((main w).1 = 1 ↔ w.fopen_ok = false) ∧
    ((main w).1 = 0 ↔ w.fopen_ok = true) := by
  cases hopen : w.fopen_ok with
  | false =>
    rw [main_open_fails w hopen]
    simp
  | true =>
    rw [main_open_ok w hopen]
    simp

/-- C12: determinism of the buffer. Whatever the two file arguments, the two worlds (file
state, write outcome, earlier calls), the buffers two invocations of `write_mbr` hand to
`fwrite` are the same list of bytes, the image of the `Mbr` built in `write_mbr`. -/
theorem write_mbr_buffer_deterministic (f1 f2 : FILE) (w1 w2 : World)
    (b1 b2 : List Nat) (s1 n1 s2 n2 : Nat)
    (h1 : (write_mbr f1 w1).2.calls = w1.calls ++ [Call.fwrite b1 s1 n1])
    (h2 : (write_mbr f2 w2).2.calls = w2.calls ++ [Call.fwrite b2 s2 n2]) :
    b1 = b2 ∧ b1 = Mbr.bytes write_mbr.mbr ∧ b1.length = 512 := by
  rw [write_mbr_snd] at h1 h2
  have e1 : [Call.fwrite (Mbr.bytes write_mbr.mbr) 1 512] = [Call.fwrite b1 s1 n1] :=
    List.append_cancel_left h1
  have e2 : [Call.fwrite (Mbr.bytes write_mbr.mbr) 1 512] = [Call.fwrite b2 s2 n2] :=
    List.append_cancel_left h2
  have g1 : Mbr.bytes write_mbr.mbr = b1 := by
    injection e1 with e1
    injection e1 with e1
  have g2 : Mbr.bytes write_mbr.mbr = b2 := by
    injection e2 with e2
    injection e2 with e2
  refine ⟨g1.symm.trans g2, g1.symm, ?_⟩
  rw [← g1]
  exact mbr_bytes_length _

set_option maxRecDepth 100000 in
/-- Witness of C12: a first call on `out.img` with a full write, a second call on another
stream, in a world with earlier calls and a write that transfers nothing. -/
theorem write_mbr_buffer_deterministic_witness :
    (write_mbr { filename := "out.img" }
      { fopen_ok := true, fwrite_ret := 512, content := some [], stderr := "",
        calls := [] }).2.calls = [] ++ [Call.fwrite (Mbr.bytes write_mbr.mbr) 1 512] ∧
    (write_mbr { filename := "other.img" }
      { fopen_ok := false, fwrite_ret := 0, content := none, stderr := "x",
        calls := [Call.fclose] }).2.calls =
      [Call.fclose] ++ [Call.fwrite (Mbr.bytes write_mbr.mbr) 1 512] ∧
    (Mbr.bytes write_mbr.mbr = Mbr.bytes write_mbr.mbr ∧
      Mbr.bytes write_mbr.mbr = Mbr.bytes write_mbr.mbr ∧
      (Mbr.bytes write_mbr.mbr).length = 512) :=
  ⟨congrArg World.calls (write_mbr_snd _ _), congrArg World.calls (write_mbr_snd _ _),
    write_mbr_buffer_deterministic { filename := "out.img" } { filename := "other.img" }
      { fopen_ok := true, fwrite_ret := 512, content := some [], stderr := "", calls := [] }
      { fopen_ok := false, fwrite_ret := 0, content := none, stderr := "x",
        calls := [Call.fclose] }
      (Mbr.bytes write_mbr.mbr) (Mbr.bytes write_mbr.mbr) 1 512 1 512
      (congrArg World.calls (write_mbr_snd _ _)) (congrArg World.calls (write_mbr_snd _ _))⟩

/-- The members of a well-formed partition record follow one another in its 16 bytes, each
at the offset that is the sum of the sizes before it, and nothing is left after the last. -/
theorem partition_members_tile (p : MbrPartition) (h : p.wf) :
    p.bytes.take 1 = [p.boot_indicator] ∧
    (p.bytes.drop 1).take 3 = p.starting_chs ∧
    (p.bytes.drop (1 + 3)).take 1 = [p.os_type] ∧
    (p.bytes.drop (1 + 3 + 1)).take 3 = p.ending_chs ∧
    (p.bytes.drop (1 + 3 + 1 + 3)).take 4 = le_bytes 4 p.starting_lba ∧
    (p.bytes.drop (1 + 3 + 1 + 3 + 4)).take 4 = le_bytes 4 p.size_in_lba ∧
    p.bytes.drop (1 + 3 + 1 + 3 + 4 + 4) = [] := by
  have himg := partition_bytes_of_wf p h
  obtain ⟨_, h2, _, _, h5, _, _, _⟩ := h
  have l1 : [p.boot_indicator].length = 1 := rfl
  have l2 : [p.os_type].length = 1 := rfl
  have l4 : (le_bytes 4 p.starting_lba).length = 4 := le_bytes_length _ _
  have l5 : (le_bytes 4 p.size_in_lba).length = 4 := le_bytes_length _ _
  have d1 : p.bytes.drop 1 = p.starting_chs ++ ([p.os_type] ++ (p.ending_chs ++
      (le_bytes 4 p.starting_lba ++ le_bytes 4 p.size_in_lba))) := by
    rw [himg, List.drop_left' l1]
  have d4 : p.bytes.drop (1 + 3) = [p.os_type] ++ (p.ending_chs ++
      (le_bytes 4 p.starting_lba ++ le_bytes 4 p.size_in_lba)) := by
    rw [← List.drop_drop, d1, List.drop_left' h2]
  have d5 : p.bytes.drop (1 + 3 + 1) = p.ending_chs ++
      (le_bytes 4 p.starting_lba ++ le_bytes 4 p.size_in_lba) := by
    rw [← List.drop_drop, d4, List.drop_left' l2]
  have d8 : p.bytes.drop (1 + 3 + 1 + 3) =
      le_bytes 4 p.starting_lba ++ le_bytes 4 p.size_in_lba := by
    rw [← List.drop_drop, d5, List.drop_left' h5]
  have d12 : p.bytes.drop (1 + 3 + 1 + 3 + 4) = le_bytes 4 p.size_in_lba := by
    rw [← List.drop_drop, d8, List.drop_left' l4]
  refine ⟨?_, ?_, ?_, ?_, ?_, ?_, ?_⟩
  · rw [himg, List.take_left' l1]
  · rw [d1, List.take_left' h2]
  · rw [d4, List.take_left' l2]
  · rw [d5, List.take_left' h5]
  · rw [d8, List.take_left' l4]
  · rw [d12, List.take_of_length_le (by omega)]
  · rw [← List.drop_drop, d12, List.drop_of_length_le (by omega)]

/-- C15: the two compile-time size assertions hold for the packed layout. The member sizes
of `MbrPartition` sum to 16, the `partition_records` region takes 4 * 16 = 64 bytes and the
member sizes of `Mbr` sum to 512. In the image of every well-formed `Mbr` each member starts
where the one before it ends (offsets 0, 440, 444, 446, 510), the last one ends at byte 511,
and the same holds for the six members inside each 16-byte record: no gap, no padding, no
overlap. -/
theorem size_assertions_hold (m : Mbr) (h : m.wf) :
    MbrPartition.sizeof = 1 + 3 + 1 + 3 + 4 + 4 ∧
    MbrPartition.sizeof = 16 ∧
    4 * MbrPartition.sizeof = 64 ∧
    Mbr.sizeof = 440 + 4 + 2 + 64 + 2 ∧
    Mbr.sizeof = 512 ∧
    (Mbr.bytes m).length = Mbr.sizeof ∧
    (Mbr.bytes m).take 440 = m.boot_code ∧
    m.boot_code.length = 440 ∧
    ((Mbr.bytes m).drop 440).take 4 = le_bytes 4 m.disk_signature ∧
    ((Mbr.bytes m).drop (440 + 4)).take 2 = le_bytes 2 m.unknown ∧
    ((Mbr.bytes m).drop (440 + 4 + 2)).take (4 * MbrPartition.sizeof) =
      m.partition_records.flatMap MbrPartition.bytes ∧
    (m.partition_records.flatMap MbrPartition.bytes).length = 64 ∧
    ((Mbr.bytes m).drop (440 + 4 + 2 + 4 * MbrPartition.sizeof)).take 2 =
      le_bytes 2 m.signature ∧
    (Mbr.bytes m).drop (440 + 4 + 2 + 4 * MbrPartition.sizeof + 2) = [] ∧
    (∀ p ∈ m.partition_records,
      p.bytes.length = MbrPartition.sizeof ∧
      p.bytes.take 1 = [p.boot_indicator] ∧
      (p.bytes.drop 1).take 3 = p.starting_chs ∧
      p.starting_chs.length = 3 ∧
      (p.bytes.drop (1 + 3)).take 1 = [p.os_type] ∧
      (p.bytes.drop (1 + 3 + 1)).take 3 = p.ending_chs ∧
      p.ending_chs.length = 3 ∧
      (p.bytes.drop (1 + 3 + 1 + 3)).take 4 = le_bytes 4 p.starting_lba ∧
      (p.bytes.drop (1 + 3 + 1 + 3 + 4)).take 4 = le_bytes 4 p.size_in_lba ∧
      p.bytes.drop (1 + 3 + 1 + 3 + 4 + 4) = []) := by
  obtain ⟨p0, p1, p2, p3, hps, _, _, _, _, himg⟩ := mbr_bytes_of_wf m h
  have hwf := h
  obtain ⟨h1, _, _, _, _, h6, _⟩ := h
  have hs : 4 * MbrPartition.sizeof = 64 := by decide
  have ld : (le_bytes 4 m.disk_signature).length = 4 := le_bytes_length _ _
  have lu : (le_bytes 2 m.unknown).length = 2 := le_bytes_length _ _
  have lg : (le_bytes 2 m.signature).length = 2 := le_bytes_length _ _
  have hR : m.partition_records.flatMap MbrPartition.bytes =
      p0.bytes ++ (p1.bytes ++ (p2.bytes ++ p3.bytes)) := by
    rw [hps]
    simp [List.flatMap]
  have lR : (m.partition_records.flatMap MbrPartition.bytes).length = 64 := by
    rw [hR]
    simp only [List.length_append, partition_bytes_length]
  have himg2 : Mbr.bytes m = m.boot_code ++ (le_bytes 4 m.disk_signature ++
      (le_bytes 2 m.unknown ++ (m.partition_records.flatMap MbrPartition.bytes ++
        le_bytes 2 m.signature))) := by
    rw [himg, hR]
    simp only [List.append_assoc]
  have d440 : (Mbr.bytes m).drop 440 = le_bytes 4 m.disk_signature ++
      (le_bytes 2 m.unknown ++ (m.partition_records.flatMap MbrPartition.bytes ++
        le_bytes 2 m.signature)) := by
    rw [himg2, List.drop_left' h1]
  have d444 : (Mbr.bytes m).drop (440 + 4) = le_bytes 2 m.unknown ++
      (m.partition_records.flatMap MbrPartition.bytes ++ le_bytes 2 m.signature) := by
    rw [← List.drop_drop, d440, List.drop_left' ld]
  have d446 : (Mbr.bytes m).drop (440 + 4 + 2) =
      m.partition_records.flatMap MbrPartition.bytes ++ le_bytes 2 m.signature := by
    rw [← List.drop_drop, d444, List.drop_left' lu]
  have d510 : (Mbr.bytes m).drop (440 + 4 + 2 + 64) = le_bytes 2 m.signature := by
    rw [← List.drop_drop, d446, List.drop_left' lR]
  refine ⟨rfl, by decide, hs, by decide, by decide, ?_, ?_, h1, ?_, ?_, ?_, lR, ?_, ?_, ?_⟩
  · rw [mbr_bytes_length, sizeof_Mbr]
  · rw [himg2, List.take_left' h1]
  · rw [d440, List.take_left' ld]
  · rw [d444, List.take_left' lu]
  · rw [hs, d446, List.take_left' lR]
  · rw [hs, d510, List.take_of_length_le (by omega)]
  · rw [hs, ← List.drop_drop, d510, List.drop_of_length_le (by omega)]
  · intro p hp
    have wp : p.wf := h6 p hp
    obtain ⟨t1, t2, t3, t4, t5, t6, t7⟩ := partition_members_tile p wp
    refine ⟨?_, t1, t2, wp.2.1, t3, t4, wp.2.2.2.2.1, t5, t6, t7⟩
    rw [partition_bytes_length]
    decide

set_option maxRecDepth 100000 in
/-- Witness of C15 at the `mbr` of `write_mbr`: its image has `sizeof (Mbr)` bytes, its
signature sits right after the 64-byte record region, and nothing follows it. -/
theorem size_assertions_hold_witness :
    write_mbr.mbr.wf ∧
    (Mbr.bytes write_mbr.mbr).length = Mbr.sizeof ∧
    ((Mbr.bytes write_mbr.mbr).drop (440 + 4 + 2 + 4 * MbrPartition.sizeof)).take 2 =
      le_bytes 2 write_mbr.mbr.signature ∧
    (Mbr.bytes write_mbr.mbr).drop (440 + 4 + 2 + 4 * MbrPartition.sizeof + 2) = [] :=
  ⟨by decide,
    (size_assertions_hold write_mbr.mbr (by decide)).2.2.2.2.2.1,
    (size_assertions_hold write_mbr.mbr (by decide)).2.2.2.2.2.2.2.2.2.2.2.2.1,
    (size_assertions_hold write_mbr.mbr (by decide)).2.2.2.2.2.2.2.2.2.2.2.2.2.1⟩

end UefiLoader
